import Mathlib

/-!
Shallow embedding of the ICP token wallet canister (`src/src/main.rs`).

Modelling conventions:
* `Principal` is modelled as `Nat` (an opaque identity; only equality is used).
* `u128` values are modelled as `Nat`; the checked operations
  (`u128::checked_add` / `u128::checked_sub`) carry the explicit
  `2 ^ 128 - 1` bound, so overflow behaviour is faithful.
* The `balances : HashMap<String, u128>` field of `Wallet` is only ever
  accessed at the key `"ICPT"` anywhere in the source (`get_balance`,
  `transfer`, `create_wallet`, `mint`, `burn`), and no code path inserts any
  other key, so it is embedded as the single field `icpt : Option Nat`
  recording whether the `"ICPT"` entry is present and its value.
* The `WALLETS : HashMap<Principal, Wallet>` store is embedded as an
  association list with HashMap lookup/insert semantics (`lookupW`,
  `updateW`).
* The thread-local mutable state (`TOKEN`, `WALLETS`, `TRANSFER_EVENTS`,
  `OWNER`) is gathered into one `State` record; every `#[update]` endpoint
  becomes a function `… → State → result × State`.  Crucially, Rust's `?`
  inside the `with`-closures aborts the closure but keeps every mutation
  already applied through the `RefCell` borrows, so each embedded endpoint
  returns the (possibly partially mutated) state together with the error —
  mutations performed before an early `return Err(..)` persist exactly as
  in the source.
-/

namespace TokenWallet

abbrev Principal := Nat

/-- Largest value of the Rust type `u128`. -/
def U128MAX : Nat := 2 ^ 128 - 1

/-- `u128::checked_add`. -/
def checked_add (a b : Nat) : Option Nat :=
  if a + b ≤ U128MAX then some (a + b) else none

/-- `u128::checked_sub`. -/
def checked_sub (a b : Nat) : Option Nat :=
  if b ≤ a then some (a - b) else none

/-- `struct Token` (main.rs lines 49-55). -/
structure Token where
  name : String
  symbol : String
  decimals : Nat
  total_supply : Nat
  deriving DecidableEq

/-- `struct Wallet` (main.rs lines 57-61); `icpt` is the `"ICPT"` entry of
the `balances` map (the only key the source ever touches). -/
structure Wallet where
  owner : Principal
  icpt : Option Nat
  deriving DecidableEq

/-- `enum TransferError` (main.rs lines 63-71). -/
inductive TransferError where
  | InsufficientBalance
  | RecipientWalletNotFound
  | SenderWalletNotFound
  | Unauthorized
  | InvalidAmount
  | OverflowError
  deriving DecidableEq

/-- `struct TransferEvent` (main.rs lines 73-79); `from` is a Lean keyword,
hence the field name `from_`. -/
structure TransferEvent where
  from_ : Principal
  to_ : Principal
  amount : Nat
  timestamp : Nat
  deriving DecidableEq

/-- The four thread-local cells (main.rs lines 81-91) gathered into one
record. -/
structure State where
  token : Token
  wallets : List (Principal × Wallet)
  transfer_events : List TransferEvent
  owner : Principal
  deriving DecidableEq

/-- `HashMap::get` on the wallet store. -/
def lookupW : List (Principal × Wallet) → Principal → Option Wallet
  | [], _ => none
  | (q, w) :: t, p => if q = p then some w else lookupW t p

/-- `HashMap::insert` / in-place mutation through `get_mut`/`entry` on the
wallet store: replace the entry if the key is present, append otherwise. -/
def updateW : List (Principal × Wallet) → Principal → Wallet → List (Principal × Wallet)
  | [], p, w => [(p, w)]
  | (q, w0) :: t, p, w => if q = p then (q, w) :: t else (q, w0) :: updateW t p w

/-- Sum of all `"ICPT"` balances in the wallet store (an absent entry
counts as 0, as in `get_balance`). -/
def sumBal : List (Principal × Wallet) → Nat
  | [] => 0
  | (_, w) :: t => w.icpt.getD 0 + sumBal t

/-- `get_balance` (main.rs lines 110-119). -/
def get_balance (s : State) (p : Principal) : Nat :=
  match lookupW s.wallets p with
  | some w => w.icpt.getD 0
  | none => 0

/-- `transfer` (main.rs lines 127-168).  `caller` is `get_caller()`, `now`
is `get_time()`.  Mutations already applied when a later step fails with
`?` persist in the returned state, exactly as the `RefCell` mutations do in
the source. -/
def transfer (caller to_ now amount : Nat) (s : State) :
    Except TransferError Bool × State :=
  if amount = 0 then (.error .InvalidAmount, s)
  else
    match lookupW s.wallets caller with
    | none => (.error .SenderWalletNotFound, s)
    | some fw =>
      if fw.owner ≠ caller then (.error .Unauthorized, s)
      else
        -- `from_wallet.balances.entry("ICPT").or_insert(0)`
        let fb := fw.icpt.getD 0
        let ws1 := updateW s.wallets caller { fw with icpt := some fb }
        if fb < amount then (.error .InsufficientBalance, { s with wallets := ws1 })
        else
          match checked_sub fb amount with
          | none => (.error .OverflowError, { s with wallets := ws1 })
          | some fb2 =>
            -- `*from_balance = …` commits the debit
            let ws2 := updateW ws1 caller { fw with icpt := some fb2 }
            -- `wallets.entry(to_).or_insert(Wallet { owner: to_, balances: … })`
            let tw := (lookupW ws2 to_).getD { owner := to_, icpt := none }
            let tb := tw.icpt.getD 0
            let ws3 := updateW ws2 to_ { tw with icpt := some tb }
            match checked_add tb amount with
            | none => (.error .OverflowError, { s with wallets := ws3 })
            | some tb2 =>
              let ws4 := updateW ws3 to_ { tw with icpt := some tb2 }
              (.ok true,
                { s with
                    wallets := ws4,
                    transfer_events := s.transfer_events ++ [⟨caller, to_, amount, now⟩] })

/-- `create_wallet` (main.rs lines 170-189). -/
def create_wallet (caller : Nat) (s : State) : Except String Principal × State :=
  match lookupW s.wallets caller with
  | some _ => (.error "Wallet already exists", s)
  | none =>
    (.ok caller,
      { s with wallets := updateW s.wallets caller { owner := caller, icpt := some 0 } })

/-- `mint` (main.rs lines 197-218).  The `total_supply` assignment commits
before the balance credit is attempted; a failing credit leaves the
increased supply in place, as in the source. -/
def mint (caller to_ amount : Nat) (s : State) : Except TransferError Bool × State :=
  if s.owner ≠ caller then (.error .Unauthorized, s)
  else
    match checked_add s.token.total_supply amount with
    | none => (.error .OverflowError, s)
    | some ts2 =>
      let s1 : State := { s with token := { s.token with total_supply := ts2 } }
      let w := (lookupW s1.wallets to_).getD { owner := to_, icpt := none }
      let b := w.icpt.getD 0
      let ws1 := updateW s1.wallets to_ { w with icpt := some b }
      match checked_add b amount with
      | none => (.error .OverflowError, { s1 with wallets := ws1 })
      | some b2 =>
        (.ok true, { s1 with wallets := updateW ws1 to_ { w with icpt := some b2 } })

/-- `burn` (main.rs lines 221-260).  The balance debit commits before the
supply subtraction is attempted; the final self-comparison of
`total_supply` mirrors the (dead) re-check in the source. -/
def burn (caller amount : Nat) (s : State) : Except TransferError Bool × State :=
  match lookupW s.wallets caller with
  | none => (.error .SenderWalletNotFound, s)
  | some w =>
    match w.icpt with
    | none => (.error .InsufficientBalance, s)
    | some b =>
      if b < amount then (.error .InsufficientBalance, s)
      else
        match checked_sub b amount with
        | none => (.error .OverflowError, s)
        | some b2 =>
          let s1 : State := { s with wallets := updateW s.wallets caller { w with icpt := some b2 } }
          match checked_sub s1.token.total_supply amount with
          | none => (.error .OverflowError, s1)
          | some ts2 =>
            let s2 : State := { s1 with token := { s1.token with total_supply := ts2 } }
            if s2.token.total_supply ≠ ts2 then (.error .OverflowError, s2)
            else (.ok true, s2)

/-- `change_owner` (main.rs lines 263-275). -/
def change_owner (caller new_owner : Nat) (s : State) : Except TransferError Unit × State :=
  if s.owner ≠ caller then (.error .Unauthorized, s)
  else (.ok (), { s with owner := new_owner })

/-- Initial total supply (main.rs line 86). -/
def INIT_SUPPLY : Nat := 1000000000000000000

/-- State right after canister `init` (main.rs lines 81-91 and 103-107):
fresh `TOKEN`, empty wallet store and event log, `OWNER` set to the
initializing caller. -/
def initState (initializer : Principal) : State :=
  { token := { name := "ICP Token", symbol := "ICPT", decimals := 8,
               total_supply := INIT_SUPPLY }
    wallets := []
    transfer_events := []
    owner := initializer }

/-- One invocation of any `#[update]` endpoint (with arbitrary caller,
arguments and host timestamp), successful or failing. -/
inductive Step : State → State → Prop where
  | create (caller : Nat) (s : State) : Step s (create_wallet caller s).2
  | xfer (caller to_ now amount : Nat) (s : State) :
      Step s (transfer caller to_ now amount s).2
  | mnt (caller to_ amount : Nat) (s : State) : Step s (mint caller to_ amount s).2
  | brn (caller amount : Nat) (s : State) : Step s (burn caller amount s).2
  | chown (caller new_owner : Nat) (s : State) :
      Step s (change_owner caller new_owner s).2

/-- States reachable from some initialized state by endpoint calls. -/
def Reachable (s : State) : Prop :=
  ∃ p0 : Principal, Relation.ReflTransGen Step (initState p0) s

/-- The inductive invariant of the ledger: every stored wallet has an
`"ICPT"` entry, the total supply sits exactly `INIT_SUPPLY` above the sum
of all balances, and the supply fits in `u128`. -/
def Inv (s : State) : Prop :=
  (∀ p w, lookupW s.wallets p = some w → w.icpt.isSome = true) ∧
  s.token.total_supply = INIT_SUPPLY + sumBal s.wallets ∧
  s.token.total_supply ≤ U128MAX

/-- A (not initialization-reachable) ledger state holding a wallet for
principal 1 with balance 5 and a wallet for principal 2 whose balance is
the largest `u128` value: crediting it overflows. -/
def bigState : State :=
  { token := { name := "ICP Token", symbol := "ICPT", decimals := 8,
               total_supply := INIT_SUPPLY }
    wallets := [(1, { owner := 1, icpt := some 5 }), (2, { owner := 2, icpt := some U128MAX })]
    transfer_events := []
    owner := 0 }

/-- A (not initialization-reachable) ledger state holding a wallet for
principal 3 with balance 7 and a wallet for principal 4 whose balance is
the largest `u128` value. -/
def bigState2 : State :=
  { token := { name := "ICP Token", symbol := "ICPT", decimals := 8,
               total_supply := INIT_SUPPLY }
    wallets := [(3, { owner := 3, icpt := some 7 }), (4, { owner := 4, icpt := some U128MAX })]
    transfer_events := []
    owner := 0 }

/-- A ledger state with zero total supply and a wallet for principal 2 at
the largest `u128` balance: minting 1 to it succeeds on the supply step
and overflows on the credit step. -/
def zeroSupplyState : State :=
  { token := { name := "ICP Token", symbol := "ICPT", decimals := 8, total_supply := 0 }
    wallets := [(2, { owner := 2, icpt := some U128MAX })]
    transfer_events := []
    owner := 0 }

/-- Reachable demo state: initialization by principal 0 followed by
`create_wallet` called by principal 1. -/
def demoState : State := (create_wallet 1 (initState 0)).2

/-- Demo state for self-transfers: one wallet for principal 1 holding 5. -/
def selfState : State :=
  { token := (initState 0).token
    wallets := [(1, { owner := 1, icpt := some 5 })]
    transfer_events := []
    owner := 0 }

/-- Demo state for transfers to an absent recipient: one wallet for
principal 1 holding 5. -/
def absentRecipState : State := selfState

/-- Scenario of §8 of the spec, state after initialization by principal 0
(the Owner); principal 1 is account A, principal 2 is account B. -/
def scen0 : State := initState 0

/-- Scenario state after the Owner mints 1000 to A. -/
def scen1 : State := (mint 0 1 1000 scen0).2

/-- Scenario state after A transfers 600 to the fresh account B (the host
timestamp of the call is 7). -/
def scen2 : State := (transfer 1 2 7 600 scen1).2

/-- Scenario state after A tries to burn 1001 (which fails). -/
def scen3 : State := (burn 1 1001 scen2).2

/-- Scenario state after A burns 400. -/
def scen4 : State := (burn 1 400 scen3).2

/-! ### Association-list lemmas for the wallet store -/

theorem lookupW_updateW_self (l : List (Principal × Wallet)) (p : Principal) (w : Wallet) :
    lookupW (updateW l p w) p = some w := by
  induction l with
  | nil => simp [updateW, lookupW]
  | cons hd t ih =>
    obtain ⟨q, w0⟩ := hd
    by_cases hq : q = p
    · simp [updateW, hq, lookupW]
    · simp [updateW, hq, lookupW, ih]

theorem lookupW_updateW_ne (l : List (Principal × Wallet)) (p q : Principal) (w : Wallet)
    (h : q ≠ p) : lookupW (updateW l p w) q = lookupW l q := by
  have hpq : p ≠ q := fun he => h he.symm
  induction l with
  | nil => simp [updateW, lookupW, hpq]
  | cons hd t ih =>
    obtain ⟨r, w0⟩ := hd
    by_cases hr : r = p
    · subst hr
      simp [updateW, lookupW, hpq]
    · simp [updateW, hr, lookupW, ih]

theorem updateW_self (l : List (Principal × Wallet)) (p : Principal) (w : Wallet)
    (h : lookupW l p = some w) : updateW l p w = l := by
  induction l with
  | nil => simp [lookupW] at h
  | cons hd t ih =>
    obtain ⟨q, w0⟩ := hd
    by_cases hq : q = p
    · subst hq
      simp [lookupW] at h
      simp [updateW, h]
    · simp [lookupW, hq] at h
      simp [updateW, hq, ih h]

theorem updateW_updateW (l : List (Principal × Wallet)) (p : Principal) (w1 w2 : Wallet) :
    updateW (updateW l p w1) p w2 = updateW l p w2 := by
  induction l with
  | nil => simp [updateW]
  | cons hd t ih =>
    obtain ⟨q, w0⟩ := hd
    by_cases hq : q = p
    · simp [updateW, hq]
    · simp [updateW, hq, ih]

theorem sumBal_updateW (l : List (Principal × Wallet)) (p : Principal) (w w0 : Wallet)
    (h : lookupW l p = some w0) :
    sumBal (updateW l p w) + w0.icpt.getD 0 = sumBal l + w.icpt.getD 0 := by
  induction l with
  | nil => simp [lookupW] at h
  | cons hd t ih =>
    obtain ⟨q, wq⟩ := hd
    by_cases hq : q = p
    · subst hq
      simp [lookupW] at h
      subst h
      simp [updateW, sumBal] <;> omega
    · simp only [lookupW, if_neg hq] at h
      simp only [updateW, if_neg hq, sumBal]
      have := ih h
      omega

theorem sumBal_updateW_none (l : List (Principal × Wallet)) (p : Principal) (w : Wallet)
    (h : lookupW l p = none) :
    sumBal (updateW l p w) = sumBal l + w.icpt.getD 0 := by
  induction l with
  | nil => simp [updateW, sumBal]
  | cons hd t ih =>
    obtain ⟨q, wq⟩ := hd
    by_cases hq : q = p
    · simp [lookupW, hq] at h
    · simp only [lookupW, if_neg hq] at h
      simp only [updateW, if_neg hq, sumBal, ih h]
      omega

theorem bal_le_sumBal (l : List (Principal × Wallet)) (p : Principal) (w : Wallet)
    (h : lookupW l p = some w) : w.icpt.getD 0 ≤ sumBal l := by
  induction l with
  | nil => simp [lookupW] at h
  | cons hd t ih =>
    obtain ⟨q, wq⟩ := hd
    by_cases hq : q = p
    · subst hq
      simp [lookupW] at h
      subst h
      simp [sumBal]
    · simp only [lookupW, if_neg hq] at h
      have := ih h
      simp only [sumBal]
      omega

theorem lookupW_updateW_cases (l : List (Principal × Wallet)) (p q : Principal)
    (w w2 : Wallet) (h : lookupW (updateW l p w) q = some w2) :
    w2 = w ∨ lookupW l q = some w2 := by
  by_cases hq : q = p
  · subst hq
    rw [lookupW_updateW_self] at h
    exact Or.inl (Option.some_injective _ h).symm
  · rw [lookupW_updateW_ne l p q w hq] at h
    exact Or.inr h

/-- Re-inserting the value the `"ICPT"` entry already holds is the
identity on a wallet. -/
theorem wallet_upd_getD (w : Wallet) (h : w.icpt.isSome = true) :
    { w with icpt := some (w.icpt.getD 0) } = w := by
  obtain ⟨o, i⟩ := w
  cases i with
  | none => simp at h
  | some b => rfl

/-! ### Checked-arithmetic lemmas -/

theorem checked_add_some (a b c : Nat) (h : checked_add a b = some c) :
    c = a + b ∧ a + b ≤ U128MAX := by
  unfold checked_add at h
  split at h
  · cases h
    exact ⟨rfl, by assumption⟩
  · cases h

theorem checked_add_none (a b : Nat) (h : checked_add a b = none) :
    U128MAX < a + b := by
  unfold checked_add at h
  split at h
  · cases h
  · omega

theorem checked_add_eq_some (a b : Nat) (h : a + b ≤ U128MAX) :
    checked_add a b = some (a + b) := by
  simp [checked_add, h]

theorem checked_sub_some (a b c : Nat) (h : checked_sub a b = some c) :
    c = a - b ∧ b ≤ a := by
  unfold checked_sub at h
  split at h
  · cases h
    exact ⟨rfl, by assumption⟩
  · cases h

theorem checked_sub_eq_some (a b : Nat) (h : b ≤ a) :
    checked_sub a b = some (a - b) := by
  simp [checked_sub, h]

/-! ### The inductive invariant -/

theorem inv_initState (p : Principal) : Inv (initState p) := by
  refine ⟨?_, ?_, ?_⟩
  · intro q w hq
    simp [initState, lookupW] at hq
  · simp [initState, sumBal]
  · norm_num [initState, INIT_SUPPLY, U128MAX]

theorem inv_change_owner (s : State) (caller new_owner : Nat) (h : Inv s) :
    Inv (change_owner caller new_owner s).2 := by
  obtain ⟨hwf, hsum, hle⟩ := h
  unfold change_owner
  split
  · exact ⟨hwf, hsum, hle⟩
  · exact ⟨hwf, hsum, hle⟩

theorem inv_create_wallet (s : State) (caller : Nat) (h : Inv s) :
    Inv (create_wallet caller s).2 := by
  obtain ⟨hwf, hsum, hle⟩ := h
  rcases hl : lookupW s.wallets caller with _ | w0
  · simp only [create_wallet, hl]
    refine ⟨?_, ?_, hle⟩
    · intro q w hq
      rcases lookupW_updateW_cases _ _ _ _ _ hq with h1 | h1
      · subst h1
        rfl
      · exact hwf q w h1
    · rw [sumBal_updateW_none s.wallets caller _ hl]
      simpa using hsum
  · simp only [create_wallet, hl]
    exact ⟨hwf, hsum, hle⟩

theorem inv_burn (s : State) (caller amount : Nat) (h : Inv s) :
    Inv (burn caller amount s).2 := by
  obtain ⟨hwf, hsum, hle⟩ := h
  rcases hl : lookupW s.wallets caller with _ | w
  · simp only [burn, hl]
    exact ⟨hwf, hsum, hle⟩
  · rcases hb : w.icpt with _ | b
    · simp only [burn, hl, hb]
      exact ⟨hwf, hsum, hle⟩
    · by_cases hlt : b < amount
      · simp only [burn, hl, hb, if_pos hlt]
        exact ⟨hwf, hsum, hle⟩
      · have hba : amount ≤ b := Nat.le_of_not_lt hlt
        have hble : b ≤ sumBal s.wallets := by
          have h1 := bal_le_sumBal s.wallets caller w hl
          rw [hb] at h1
          simpa using h1
        have hts : amount ≤ s.token.total_supply := by omega
        have hsw := sumBal_updateW s.wallets caller { w with icpt := some (b - amount) } w hl
        rw [hb] at hsw
        simp only [Option.getD_some] at hsw
        simp only [burn, hl, hb, if_neg hlt, checked_sub_eq_some b amount hba,
          checked_sub_eq_some s.token.total_supply amount hts]
        simp only [ne_eq, not_true_eq_false, if_neg, ite_false, if_false]
        refine ⟨?_, ?_, ?_⟩
        · intro q w2 hq
          rcases lookupW_updateW_cases _ _ _ _ _ hq with h1 | h1
          · subst h1
            rfl
          · exact hwf q w2 h1
        · simp only []
          omega
        · simp only []
          omega

theorem inv_mint (s : State) (caller to_ amount : Nat) (h : Inv s) :
    Inv (mint caller to_ amount s).2 := by
  obtain ⟨hwf, hsum, hle⟩ := h
  by_cases hown : s.owner ≠ caller
  · simp only [mint, if_pos hown]
    exact ⟨hwf, hsum, hle⟩
  · rcases hadd : checked_add s.token.total_supply amount with _ | ts2
    · simp only [mint, if_neg hown, hadd]
      exact ⟨hwf, hsum, hle⟩
    · obtain ⟨hts2, htsle⟩ := checked_add_some _ _ _ hadd
      rcases hl : lookupW s.wallets to_ with _ | w0
      · -- recipient wallet created on demand with balance 0, then credited
        have hcr : checked_add ((0 : Nat)) amount = some amount := by
          have h1 : (0 : Nat) + amount ≤ U128MAX := by omega
          simpa using checked_add_eq_some 0 amount h1
        simp only [mint, if_neg hown, hadd, hl, Option.getD_none, Option.getD_some, hcr,
          updateW_updateW]
        refine ⟨?_, ?_, ?_⟩
        · intro q w2 hq
          rcases lookupW_updateW_cases _ _ _ _ _ hq with h1 | h1
          · subst h1
            rfl
          · exact hwf q w2 h1
        · show ts2 = INIT_SUPPLY + sumBal (updateW s.wallets to_ { owner := to_, icpt := some amount })
          rw [sumBal_updateW_none s.wallets to_ _ hl]
          simp only [Option.getD_some]
          omega
        · show ts2 ≤ U128MAX
          omega
      · -- recipient wallet exists; its balance plus the mint fits in u128
        have hib := hwf to_ w0 hl
        obtain ⟨b0, hb0⟩ : ∃ b0, w0.icpt = some b0 := Option.isSome_iff_exists.mp hib
        have hb0le : b0 ≤ sumBal s.wallets := by
          have h1 := bal_le_sumBal s.wallets to_ w0 hl
          rw [hb0] at h1
          simpa using h1
        have hcr : checked_add b0 amount = some (b0 + amount) :=
          checked_add_eq_some b0 amount (by omega)
        have hsw := sumBal_updateW s.wallets to_
          { w0 with icpt := some (b0 + amount) } w0 hl
        rw [hb0] at hsw
        simp only [Option.getD_some] at hsw
        simp only [mint, if_neg hown, hadd, hl, Option.getD_some, hb0, hcr, updateW_updateW]
        refine ⟨?_, ?_, ?_⟩
        · intro q w2 hq
          rcases lookupW_updateW_cases _ _ _ _ _ hq with h1 | h1
          · subst h1
            rfl
          · exact hwf q w2 h1
        · show ts2 = INIT_SUPPLY + sumBal (updateW s.wallets to_ { w0 with icpt := some (b0 + amount) })
          omega
        · show ts2 ≤ U128MAX
          omega

theorem inv_transfer (s : State) (caller to_ now amount : Nat) (h : Inv s) :
    Inv (transfer caller to_ now amount s).2 := by
  obtain ⟨hwf, hsum, hle⟩ := h
  by_cases h0 : amount = 0
  · simp only [transfer, if_pos h0]
    exact ⟨hwf, hsum, hle⟩
  · rcases hl : lookupW s.wallets caller with _ | fw
    · simp only [transfer, if_neg h0, hl]
      exact ⟨hwf, hsum, hle⟩
    · by_cases hown : fw.owner = caller
      case neg =>
        have hne : fw.owner ≠ caller := hown
        simp only [transfer, if_neg h0, hl, if_pos hne]
        exact ⟨hwf, hsum, hle⟩
      case pos =>
      have hoc : ¬(fw.owner ≠ caller) := fun hne => hne hown
      have hiw := hwf caller fw hl
      obtain ⟨fb, hfb⟩ : ∃ fb, fw.icpt = some fb := Option.isSome_iff_exists.mp hiw
      have hfw1 : { fw with icpt := some (fw.icpt.getD 0) } = fw := wallet_upd_getD fw hiw
      by_cases hlt : fw.icpt.getD 0 < amount
      · simp only [transfer, if_neg h0, hl, if_neg hoc, if_pos hlt, hfw1,
          updateW_self s.wallets caller fw hl]
        exact ⟨hwf, hsum, hle⟩
      · have hba : amount ≤ fw.icpt.getD 0 := Nat.le_of_not_lt hlt
        have hbs : fw.icpt.getD 0 ≤ sumBal s.wallets := bal_le_sumBal s.wallets caller fw hl
        have hsub : checked_sub (fw.icpt.getD 0) amount =
            some (fw.icpt.getD 0 - amount) := checked_sub_eq_some _ _ hba
        -- the committed debit
        have hsw2 := sumBal_updateW s.wallets caller
          { fw with icpt := some (fw.icpt.getD 0 - amount) } fw hl
        simp only [Option.getD_some] at hsw2
        simp only [transfer, if_neg h0, hl, if_neg hoc, if_neg hlt, hfw1,
          updateW_self s.wallets caller fw hl, hsub]
        rcases hto : lookupW
            (updateW s.wallets caller { fw with icpt := some (fw.icpt.getD 0 - amount) }) to_
          with _ | tw0
        · -- recipient absent even after the debit: fresh zero balance, cannot overflow
          have hcr : checked_add 0 amount = some amount := by
            have h1 : (0 : Nat) + amount ≤ U128MAX := by omega
            simpa using checked_add_eq_some 0 amount h1
          simp only [hto, Option.getD_none, Option.getD_some, hcr, updateW_updateW]
          refine ⟨?_, ?_, hle⟩
          · intro q w2 hq
            rcases lookupW_updateW_cases _ _ _ _ _ hq with h1 | h1
            · subst h1
              rfl
            · rcases lookupW_updateW_cases _ _ _ _ _ h1 with h2 | h2
              · subst h2
                rfl
              · exact hwf q w2 h2
          · show s.token.total_supply = INIT_SUPPLY + sumBal (updateW
              (updateW s.wallets caller { fw with icpt := some (fw.icpt.getD 0 - amount) }) to_
              { owner := to_, icpt := some amount })
            rw [sumBal_updateW_none _ to_ _ hto]
            simp only [Option.getD_some]
            omega
        · -- recipient present after the debit
          have htb : tw0.icpt.getD 0 ≤ sumBal
              (updateW s.wallets caller { fw with icpt := some (fw.icpt.getD 0 - amount) }) :=
            bal_le_sumBal _ to_ tw0 hto
          have hcr : checked_add (tw0.icpt.getD 0) amount =
              some (tw0.icpt.getD 0 + amount) :=
            checked_add_eq_some _ _ (by omega)
          have hsw4 := sumBal_updateW
            (updateW s.wallets caller { fw with icpt := some (fw.icpt.getD 0 - amount) }) to_
            { tw0 with icpt := some (tw0.icpt.getD 0 + amount) } tw0 hto
          simp only [Option.getD_some] at hsw4
          simp only [hto, Option.getD_some, hcr, updateW_updateW]
          refine ⟨?_, ?_, hle⟩
          · intro q w2 hq
            rcases lookupW_updateW_cases _ _ _ _ _ hq with h1 | h1
            · subst h1
              rfl
            · rcases lookupW_updateW_cases _ _ _ _ _ h1 with h2 | h2
              · subst h2
                rfl
              · exact hwf q w2 h2
          · show s.token.total_supply = INIT_SUPPLY + sumBal (updateW
              (updateW s.wallets caller { fw with icpt := some (fw.icpt.getD 0 - amount) }) to_
              { tw0 with icpt := some (tw0.icpt.getD 0 + amount) })
            omega

/-- Every endpoint call preserves the invariant. -/
theorem inv_step (s s2 : State) (h : Inv s) (hs : Step s s2) : Inv s2 := by
  cases hs with
  | create caller s => exact inv_create_wallet s caller h
  | xfer caller to_ now amount s => exact inv_transfer s caller to_ now amount h
  | mnt caller to_ amount s => exact inv_mint s caller to_ amount h
  | brn caller amount s => exact inv_burn s caller amount h
  | chown caller new_owner s => exact inv_change_owner s caller new_owner h

/-- Every reachable state satisfies the invariant. -/
theorem inv_reachable (s : State) (h : Reachable s) : Inv s := by
  obtain ⟨p0, hr⟩ := h
  induction hr with
  | refl => exact inv_initState p0
  | tail _ hstep ih => exact inv_step _ _ ih hstep

/-! ### Claim theorems -/

/-- C1: the claimed transfer atomicity fails on the code.  At the concrete
state `bigState` (sender 1 holds 5, recipient 2 holds the largest `u128`
value), `transfer 1 2 0 5` returns `OverflowError` from the
recipient-credit checked addition, yet in the returned state the sender's
balance has been debited from 5 to 0: the prior debit is observable to
callers after the error, and the ledger state differs from its pre-call
value. -/
theorem transfer_overflow_commits_debit :
    (transfer 1 2 0 5 bigState).1 = .error .OverflowError ∧
    get_balance bigState 1 = 5 ∧
    get_balance (transfer 1 2 0 5 bigState).2 1 = 0 ∧
    (transfer 1 2 0 5 bigState).2 ≠ bigState :=
  ⟨rfl, rfl, rfl, by decide⟩

/-- C3: the claimed mint atomicity fails on the code.  At the concrete
state `zeroSupplyState` (total supply 0, recipient 2 holds the largest
`u128` value), the Owner's `mint 0 2 1` passes the supply checked addition,
commits `total_supply := 1`, then fails the balance-credit checked addition
with `OverflowError` — and the returned state keeps the increased supply
instead of the pre-call value 0. -/
theorem mint_overflow_commits_supply :
    (mint 0 2 1 zeroSupplyState).1 = .error .OverflowError ∧
    zeroSupplyState.token.total_supply = 0 ∧
    (mint 0 2 1 zeroSupplyState).2.token.total_supply = 1 ∧
    get_balance (mint 0 2 1 zeroSupplyState).2 2 = get_balance zeroSupplyState 2 :=
  ⟨rfl, rfl, rfl, rfl⟩

/-- C2 (counterexample): the claimed conservation law
`total_supply = sum of all balances` is already false in the reachable
initial state, where the supply is `INIT_SUPPLY` and no account exists. -/
theorem conservation_fails_at_init :
    Reachable (initState 0) ∧
    (initState 0).token.total_supply ≠ sumBal (initState 0).wallets :=
  ⟨⟨0, Relation.ReflTransGen.refl⟩, by decide⟩

/-- C2 (amended): in every reachable state the total supply equals the
initial supply `INIT_SUPPLY` plus the sum of all `"ICPT"` balances. -/
theorem conservation_offset (s : State) (h : Reachable s) :
    s.token.total_supply = INIT_SUPPLY + sumBal s.wallets :=
  (inv_reachable s h).2.1

/-- Witness for `conservation_offset` at the concrete reachable state
`initState 0`. -/
theorem conservation_offset_witness :
    (initState 0).token.total_supply = INIT_SUPPLY + sumBal (initState 0).wallets :=
  conservation_offset (initState 0) ⟨0, Relation.ReflTransGen.refl⟩

/-- C8: in every reachable state, `total_supply` equals the initial supply
plus the net sum of balances (the quantity `total_supply − sum` is the
conserved offset `INIT_SUPPLY`), hence the sum of balances never exceeds
`total_supply`, and `burn` can never fail with `OverflowError` there — in
particular its checked subtraction of `total_supply` never fails. -/
theorem offset_conservation_reachable (s : State) (caller amount : Nat)
    (h : Reachable s) :
    s.token.total_supply = INIT_SUPPLY + sumBal s.wallets ∧
    sumBal s.wallets ≤ s.token.total_supply ∧
    (burn caller amount s).1 ≠ .error .OverflowError := by
  obtain ⟨hwf, hsum, hle⟩ := inv_reachable s h
  refine ⟨hsum, by omega, ?_⟩
  rcases hl : lookupW s.wallets caller with _ | w
  · simp [burn, hl]
  · obtain ⟨b, hb⟩ : ∃ b, w.icpt = some b := Option.isSome_iff_exists.mp (hwf caller w hl)
    by_cases hlt : b < amount
    · simp [burn, hl, hb, hlt]
    · have hba : amount ≤ b := Nat.le_of_not_lt hlt
      have hbs : b ≤ sumBal s.wallets := by
        have h1 := bal_le_sumBal s.wallets caller w hl
        rw [hb] at h1
        simpa using h1
      have hts : amount ≤ s.token.total_supply := by omega
      simp [burn, hl, hb, hlt, checked_sub_eq_some b amount hba,
        checked_sub_eq_some s.token.total_supply amount hts]

/-- Witness for `offset_conservation_reachable` at the concrete reachable
state `demoState` (principal 1 created a wallet), with `burn 1 0` taking
the successful deep path through both checked subtractions. -/
theorem offset_conservation_reachable_witness :
    demoState.token.total_supply = INIT_SUPPLY + sumBal demoState.wallets ∧
    sumBal demoState.wallets ≤ demoState.token.total_supply ∧
    (burn 1 0 demoState).1 ≠ .error .OverflowError :=
  offset_conservation_reachable demoState 1 0
    ⟨0, Relation.ReflTransGen.single (Step.create 1 (initState 0))⟩

/-- C7: the end-to-end scenario of §8 of the spec, checked by evaluation:
from the initialized state (owner 0, supply `INIT_SUPPLY`), `mint` of 1000
to the fresh account 1 (A), a transfer of 600 from A to the fresh account
2 (B) at time 7, a failing `burn 1001` and a succeeding `burn 400` produce
exactly the balances, supplies, event log and errors the spec lists. -/
theorem scenario_end_to_end :
    (mint 0 1 1000 scen0).1 = .ok true ∧
    get_balance scen1 1 = 1000 ∧
    scen1.token.total_supply = 1000000000000001000 ∧
    (transfer 1 2 7 600 scen1).1 = .ok true ∧
    get_balance scen2 1 = 400 ∧
    get_balance scen2 2 = 600 ∧
    scen2.transfer_events = [{ from_ := 1, to_ := 2, amount := 600, timestamp := 7 }] ∧
    (burn 1 1001 scen2).1 = .error .InsufficientBalance ∧
    scen3 = scen2 ∧
    get_balance scen3 1 = 400 ∧
    (burn 1 400 scen3).1 = .ok true ∧
    get_balance scen4 1 = 0 ∧
    scen4.token.total_supply = 1000000000000000600 :=
  ⟨rfl, rfl, rfl, rfl, rfl, rfl, rfl, rfl, rfl, rfl, rfl, rfl, rfl⟩

/-- C4: `transfer` checks its preconditions in the fixed order
zero-amount, sender-existence, sender-ownership, sufficient-balance,
short-circuiting on the first failure; in every reachable state each such
failure returns the error of the earliest violated check and leaves the
state completely unchanged. -/
theorem transfer_check_order (s : State) (caller to_ now amount : Nat) (fw : Wallet)
    (h : Reachable s) :
    (amount = 0 → transfer caller to_ now amount s = (.error .InvalidAmount, s)) ∧
    (amount ≠ 0 → lookupW s.wallets caller = none →
      transfer caller to_ now amount s = (.error .SenderWalletNotFound, s)) ∧
    (amount ≠ 0 → lookupW s.wallets caller = some fw → fw.owner ≠ caller →
      transfer caller to_ now amount s = (.error .Unauthorized, s)) ∧
    (amount ≠ 0 → lookupW s.wallets caller = some fw → fw.owner = caller →
      fw.icpt.getD 0 < amount →
      transfer caller to_ now amount s = (.error .InsufficientBalance, s)) := by
  obtain ⟨hwf, hsum, hle⟩ := inv_reachable s h
  refine ⟨?_, ?_, ?_, ?_⟩
  · intro h0
    simp [transfer, h0]
  · intro h0 hl
    simp [transfer, h0, hl]
  · intro h0 hl hne
    simp [transfer, h0, hl, hne]
  · intro h0 hl hown hlt
    have hoc : ¬(fw.owner ≠ caller) := fun hne => hne hown
    have hfw1 := wallet_upd_getD fw (hwf caller fw hl)
    simp only [transfer, if_neg h0, hl, if_neg hoc, if_pos hlt, hfw1,
      updateW_self s.wallets caller fw hl]

/-- Witness for `transfer_check_order`: in the reachable state `demoState`
(principal 1 owns a fresh zero-balance wallet) a transfer of 5 fails with
`InsufficientBalance` and changes nothing. -/
theorem transfer_check_order_witness :
    transfer 1 2 0 5 demoState = (.error .InsufficientBalance, demoState) :=
  (transfer_check_order demoState 1 2 0 5 { owner := 1, icpt := some 0 }
      ⟨0, Relation.ReflTransGen.single (Step.create 1 (initState 0))⟩).2.2.2
    (by decide) rfl rfl (by decide)

/-- C5 (counterexample): "mint succeeds iff the caller is the Owner" is
false: at the initialized state the Owner itself (principal 0) calls
`mint 0 0 U128MAX`, which fails with `OverflowError` on the supply checked
addition even though the caller equals the Owner. -/
theorem mint_owner_may_fail :
    (initState 0).owner = 0 ∧
    (mint 0 0 U128MAX (initState 0)).1 = .error .OverflowError ∧
    ¬(((mint 0 0 U128MAX (initState 0)).1 = .ok true) ↔ 0 = (initState 0).owner) := by
  refine ⟨rfl, rfl, ?_⟩
  intro hiff
  have h1 := hiff.mpr rfl
  rw [show (mint 0 0 U128MAX (initState 0)).1 = .error .OverflowError from rfl] at h1
  exact Except.noConfusion h1

/-- `mint` by the current Owner never reports `Unauthorized` (it can still
fail with `OverflowError`). -/
theorem mint_not_unauthorized (s : State) (target amount : Nat) (caller : Nat)
    (he : s.owner = caller) :
    (mint caller target amount s).1 ≠ .error .Unauthorized := by
  have hoc : ¬(s.owner ≠ caller) := fun hne => hne he
  rcases hadd : checked_add s.token.total_supply amount with _ | ts2
  · simp [mint, hoc, hadd]
  · simp only [mint, if_neg hoc, hadd]
    split
    · simp
    · simp

/-- C5 (amended): `change_owner` succeeds exactly when the caller is the
current Owner (and then replaces the Owner unconditionally, so a no-op
reassignment succeeds); a non-owner call fails with `Unauthorized` leaving
the state unchanged.  `mint` returns `Unauthorized` exactly when the
caller is not the current Owner (an owner call may still fail with
`OverflowError`), and a non-owner `mint` leaves the state unchanged.  A
successful `transfer` requires the caller to own the source account: the
stored `owner` field of the caller's wallet equals the caller. -/
theorem authorization_char (s : State) (caller target now amount : Nat) (b : Bool) :
    ((change_owner caller target s).1 = .ok () ↔ caller = s.owner) ∧
    (caller ≠ s.owner → change_owner caller target s = (.error .Unauthorized, s)) ∧
    (caller = s.owner → change_owner caller target s = (.ok (), { s with owner := target })) ∧
    ((mint caller target amount s).1 = .error .Unauthorized ↔ caller ≠ s.owner) ∧
    (caller ≠ s.owner → mint caller target amount s = (.error .Unauthorized, s)) ∧
    ((transfer caller target now amount s).1 = .ok b →
      (lookupW s.wallets caller).map Wallet.owner = some caller) := by
  refine ⟨?_, ?_, ?_, ?_, ?_, ?_⟩
  · by_cases he : s.owner = caller
    · have hoc : ¬(s.owner ≠ caller) := fun hne => hne he
      simp [change_owner, hoc, he.symm]
    · have hso : s.owner ≠ caller := he
      have hcs : caller ≠ s.owner := fun hx => he hx.symm
      simp [change_owner, hso, hcs]
  · intro hcs
    have hso : s.owner ≠ caller := fun hx => hcs hx.symm
    simp [change_owner, hso]
  · intro hcs
    have hoc : ¬(s.owner ≠ caller) := fun hne => hne hcs.symm
    simp [change_owner, hoc]
  · constructor
    · intro hu
      intro hcs
      exact mint_not_unauthorized s target amount caller hcs.symm hu
    · intro hcs
      have hso : s.owner ≠ caller := fun hx => hcs hx.symm
      simp [mint, hso]
  · intro hcs
    have hso : s.owner ≠ caller := fun hx => hcs hx.symm
    simp [mint, hso]
  · intro hok
    by_cases h0 : amount = 0
    · simp [transfer, h0] at hok
    · rcases hl : lookupW s.wallets caller with _ | fw
      · simp [transfer, h0, hl] at hok
      · by_cases hne : fw.owner ≠ caller
        · simp [transfer, h0, hl, hne] at hok
        · exact congrArg some (not_not.mp hne)

/-- Witness for `authorization_char` at a concrete input: at the
initialized state owned by principal 0, a no-op `change_owner 0` by the
Owner succeeds, a `change_owner` by the non-owner 5 fails `Unauthorized`
with the state unchanged, and a non-owner `mint` likewise. -/
theorem authorization_char_witness :
    (change_owner 0 0 (initState 0)).1 = .ok () ∧
    change_owner 0 0 (initState 0) = (.ok (), { initState 0 with owner := 0 }) ∧
    change_owner 5 6 (initState 0) = (.error .Unauthorized, initState 0) ∧
    mint 5 6 7 (initState 0) = (.error .Unauthorized, initState 0) :=
  ⟨(authorization_char (initState 0) 0 0 0 0 true).1.mpr rfl,
   (authorization_char (initState 0) 0 0 0 0 true).2.2.1 rfl,
   (authorization_char (initState 0) 5 6 0 0 true).2.1 (by decide),
   (authorization_char (initState 0) 5 6 0 7 true).2.2.2.2.1 (by decide)⟩

/-- C6: the idempotent creation guard.  If no account exists for an
identity, `create_wallet` succeeds, returns that identity, and installs a
wallet with a zero `"ICPT"` balance; an immediate second call by the same
identity fails with the duplicate-account error ("Wallet already exists")
and returns the state of the first call completely unchanged. -/
theorem create_wallet_guard (s : State) (caller : Nat)
    (hl : lookupW s.wallets caller = none) :
    (create_wallet caller s).1 = .ok caller ∧
    lookupW (create_wallet caller s).2.wallets caller =
      some { owner := caller, icpt := some 0 } ∧
    create_wallet caller (create_wallet caller s).2 =
      (.error "Wallet already exists", (create_wallet caller s).2) := by
  simp only [create_wallet, hl]
  refine ⟨?_, ?_, ?_⟩
  · trivial
  · exact lookupW_updateW_self s.wallets caller _
  · simp only [create_wallet, lookupW_updateW_self]

/-- Witness for `create_wallet_guard`: principal 3 creating a wallet twice
from the initialized state. -/
theorem create_wallet_guard_witness :
    (create_wallet 3 (initState 0)).1 = .ok 3 ∧
    lookupW (create_wallet 3 (initState 0)).2.wallets 3 =
      some { owner := 3, icpt := some 0 } ∧
    create_wallet 3 (create_wallet 3 (initState 0)).2 =
      (.error "Wallet already exists", (create_wallet 3 (initState 0)).2) :=
  create_wallet_guard (initState 0) 3 rfl

/-- C9 (counterexample): a transfer that fails at the recipient-credit
step with `OverflowError` does not leave behind an on-demand-created
zero-balance recipient account: at `bigState2` the failing
`transfer 3 4 0 7` finds recipient 4 already present (the lookup is not
`none`), and after the failure the recipient's entry is its old huge
balance, not the claimed fresh zero entry. -/
theorem transfer_overflow_recipient_not_fresh :
    (transfer 3 4 0 7 bigState2).1 = .error .OverflowError ∧
    lookupW (transfer 3 4 0 7 bigState2).2.wallets 4 ≠
      some { owner := 4, icpt := some 0 } ∧
    lookupW bigState2.wallets 4 ≠ none :=
  ⟨rfl, by decide, by decide⟩

/-- C9 (amended): whenever `transfer` fails with `OverflowError` (which,
for a valid `u128` amount and `u128`-valid stored balances, can only
happen at the recipient-credit step), the recipient account already
existed before the call — an on-demand-created recipient starts at
balance zero and cannot overflow — and its entire entry survives the
failed call unchanged: the stored wallet, its prior (necessarily nonzero)
`"ICPT"` balance included, is exactly what it was before the call, not a
fresh zero entry; hence a subsequent `create_wallet` by that recipient
fails with the duplicate-account error and changes nothing. -/
theorem transfer_overflow_recipient_preexists (s : State) (caller to_ now amount : Nat)
    (hval : amount ≤ U128MAX)
    (hsv : ∀ p w, lookupW s.wallets p = some w → w.icpt.getD 0 ≤ U128MAX)
    (hov : (transfer caller to_ now amount s).1 = .error .OverflowError) :
    (lookupW s.wallets to_).isSome = true ∧
    lookupW (transfer caller to_ now amount s).2.wallets to_ = lookupW s.wallets to_ ∧
    get_balance (transfer caller to_ now amount s).2 to_ = get_balance s to_ ∧
    0 < get_balance s to_ ∧
    create_wallet to_ (transfer caller to_ now amount s).2 =
      (.error "Wallet already exists", (transfer caller to_ now amount s).2) := by
  by_cases h0 : amount = 0
  · simp [transfer, h0] at hov
  · rcases hl : lookupW s.wallets caller with _ | fw
    · simp [transfer, h0, hl] at hov
    · by_cases hne : fw.owner ≠ caller
      · simp [transfer, h0, hl, hne] at hov
      · by_cases hlt : fw.icpt.getD 0 < amount
        · simp [transfer, h0, hl, hne, hlt] at hov
        · have hba : amount ≤ fw.icpt.getD 0 := Nat.le_of_not_lt hlt
          have hsub := checked_sub_eq_some (fw.icpt.getD 0) amount hba
          rcases hto : lookupW (updateW s.wallets caller
              { fw with icpt := some (fw.icpt.getD 0 - amount) }) to_ with _ | tw0
          · -- a fresh recipient starts at 0 and cannot overflow: contradiction
            have hcr : checked_add 0 amount = some amount := by
              simpa using checked_add_eq_some 0 amount (by omega)
            simp [transfer, h0, hl, hne, hlt, hsub, updateW_updateW, hto, hcr] at hov
          · rcases hcr2 : checked_add (tw0.icpt.getD 0) amount with _ | tb2
            · -- the genuine overflow branch
              have hovf := checked_add_none _ _ hcr2
              -- a self-transfer cannot overflow here: the debited balance plus
              -- the amount is the (u128-valid) original balance
              have hqc : to_ ≠ caller := by
                intro he
                rw [he, lookupW_updateW_self] at hto
                have htw : tw0 = { fw with icpt := some (fw.icpt.getD 0 - amount) } :=
                  (Option.some_injective _ hto).symm
                have hfs := hsv caller fw hl
                rw [htw] at hovf
                simp only [Option.getD_some] at hovf
                omega
              -- so the recipient entry is untouched by the sender debit
              have hpre : lookupW s.wallets to_ = some tw0 := by
                rw [← lookupW_updateW_ne s.wallets caller to_
                  { fw with icpt := some (fw.icpt.getD 0 - amount) } hqc]
                exact hto
              -- an entry whose credit overflows holds an actual balance
              have htwb : tw0.icpt.isSome = true := by
                cases hic : tw0.icpt with
                | none =>
                  rw [hic] at hovf
                  simp at hovf
                  omega
                | some b => rfl
              have htw1 := wallet_upd_getD tw0 htwb
              have hws2 : updateW (updateW s.wallets caller
                  { fw with icpt := some (fw.icpt.getD 0 - amount) }) to_ tw0 =
                  updateW s.wallets caller
                  { fw with icpt := some (fw.icpt.getD 0 - amount) } :=
                updateW_self _ to_ tw0 hto
              simp only [transfer, if_neg h0, hl, if_neg hne, if_neg hlt, hsub,
                updateW_updateW, hto, Option.getD_some, hcr2, htw1, hws2]
              refine ⟨?_, ?_, ?_, ?_, ?_⟩
              · rw [hpre]
                rfl
              · exact hpre.symm
              · simp only [get_balance, hto, hpre]
              · simp only [get_balance, hpre]
                omega
              · simp only [create_wallet, hto]
            · -- the credit succeeded: contradiction with the OverflowError result
              simp [transfer, h0, hl, hne, hlt, hsub, updateW_updateW, hto, hcr2] at hov

/-- Witness for `transfer_overflow_recipient_preexists` at the concrete
overflowing transfer from `bigState2`: recipient 4 keeps its prior entry
and nonzero balance. -/
theorem transfer_overflow_recipient_preexists_witness :
    (lookupW bigState2.wallets 4).isSome = true ∧
    lookupW (transfer 3 4 0 7 bigState2).2.wallets 4 = lookupW bigState2.wallets 4 ∧
    get_balance (transfer 3 4 0 7 bigState2).2 4 = get_balance bigState2 4 ∧
    0 < get_balance bigState2 4 ∧
    create_wallet 4 (transfer 3 4 0 7 bigState2).2 =
      (.error "Wallet already exists", (transfer 3 4 0 7 bigState2).2) :=
  transfer_overflow_recipient_preexists bigState2 3 4 0 7 (by decide)
    (by
      intro p w h
      simp only [bigState2, lookupW] at h
      split at h
      · cases h
        decide
      · split at h
        · cases h
          decide
        · cases h)
    rfl

/-- C10: a self-transfer is an identity on balances.  If the caller owns
an account whose stored `owner` field is the caller and whose `"ICPT"`
balance is a valid `u128` value at least `amount`, with `amount > 0`, then
`transfer caller caller` succeeds, leaves the wallet store, the token
record (hence `total_supply`) and the Owner unchanged, and appends exactly
one `TransferEvent` with equal sender and recipient. -/
theorem self_transfer_identity (s : State) (caller now amount : Nat) (fw : Wallet)
    (hl : lookupW s.wallets caller = some fw) (hown : fw.owner = caller)
    (hba : amount ≤ fw.icpt.getD 0) (h0 : 0 < amount)
    (hmax : fw.icpt.getD 0 ≤ U128MAX) :
    (transfer caller caller now amount s).1 = .ok true ∧
    (transfer caller caller now amount s).2.wallets = s.wallets ∧
    (transfer caller caller now amount s).2.token = s.token ∧
    (transfer caller caller now amount s).2.owner = s.owner ∧
    (transfer caller caller now amount s).2.transfer_events =
      s.transfer_events ++ [{ from_ := caller, to_ := caller, amount := amount, timestamp := now }] := by
  have h0ne : amount ≠ 0 := by omega
  have hoc : ¬(fw.owner ≠ caller) := fun hne => hne hown
  have hlt : ¬(fw.icpt.getD 0 < amount) := Nat.not_lt.mpr hba
  have hiw : fw.icpt.isSome = true := by
    cases hic : fw.icpt with
    | none =>
      rw [hic] at hba
      simp at hba
      omega
    | some b => rfl
  have hfw1 := wallet_upd_getD fw hiw
  have hsub := checked_sub_eq_some (fw.icpt.getD 0) amount hba
  have hto : lookupW (updateW s.wallets caller
      { fw with icpt := some (fw.icpt.getD 0 - amount) }) caller =
      some { fw with icpt := some (fw.icpt.getD 0 - amount) } :=
    lookupW_updateW_self _ _ _
  have hcr : checked_add (fw.icpt.getD 0 - amount) amount =
      some (fw.icpt.getD 0 - amount + amount) :=
    checked_add_eq_some _ _ (by omega)
  have hrestore : fw.icpt.getD 0 - amount + amount = fw.icpt.getD 0 := by omega
  simp only [transfer, if_neg h0ne, hl, if_neg hoc, if_neg hlt, hsub, updateW_updateW,
    hto, Option.getD_some, hcr, hrestore, hfw1, updateW_self s.wallets caller fw hl]
  refine ⟨?_, ?_, ?_, ?_, ?_⟩ <;> trivial

/-- Witness for `self_transfer_identity`: principal 1 transfers 3 of its
5 tokens to itself in `selfState`. -/
theorem self_transfer_identity_witness :
    (transfer 1 1 9 3 selfState).1 = .ok true ∧
    (transfer 1 1 9 3 selfState).2.wallets = selfState.wallets ∧
    (transfer 1 1 9 3 selfState).2.token = selfState.token ∧
    (transfer 1 1 9 3 selfState).2.owner = selfState.owner ∧
    (transfer 1 1 9 3 selfState).2.transfer_events =
      selfState.transfer_events ++ [{ from_ := 1, to_ := 1, amount := 3, timestamp := 9 }] :=
  self_transfer_identity selfState 1 9 3 { owner := 1, icpt := some 5 } rfl rfl
    (by decide) (by decide) (by decide)

end TokenWallet
